import Mathlib

/-!
Verification of the habit-tracker core logic (src/App.tsx, src/lib/videos.ts,
src/lib/playlists.ts) against its design specification.

Modelling conventions for the shallow embedding:
* Calendar days are integers (day numbers). The source represents a day as the
  fixed-width YYYY-MM-DD string produced by toISOString().slice(0, 10); on the
  365-day window walked by the streak code this representation is an injective,
  order-preserving image of the day number, equality of day strings is equality
  of day numbers, and the setDate(getDate() - 1) step is day-number decrement.
* JavaScript string operations that the source relies on (trim, toLowerCase,
  includes) are modelled as executable functions on the underlying character
  lists.
* AsyncStorage is modelled as a total map from string keys to optional string
  values; JSON.stringify / JSON.parse for the two persisted record shapes are
  modelled by executable encoders and parsers over character lists.
* React state updates are modelled by explicit state passing: each handler is a
  pure function from the collections it reads to the collections it writes.
-/

-- ─── Data model (src/App.tsx, interface Habit / interface Completion) ─────────

/-- Habit record from src/App.tsx: id, name, createdAt plus the cached video and
playlist suggestion fields assigned at creation. -/
structure Habit where
  id : String
  name : String
  createdAt : String
  videoId : String
  videoTitle : String
  playlistId : String
  playlistTitle : String
  playlistCategory : String
  playlistEmoji : String
  playlistColor : String
deriving DecidableEq

/-- Completion record from src/App.tsx: a habit id and a calendar day. -/
structure Completion where
  habitId : String
  date : Int
deriving DecidableEq

-- ─── JavaScript string primitives used by the source ──────────────────────────

/-- Model of the JavaScript substring test used by String.prototype.includes:
true when pat occurs contiguously inside hay. -/
def listIncludes (hay pat : List Char) : Bool :=
  match hay with
  | [] => pat.isEmpty
  | c :: t => (List.isPrefixOf pat (c :: t)) || listIncludes t pat

/-- Model of lower.includes(kw) on strings. -/
def strIncludes (hay pat : String) : Bool :=
  listIncludes hay.data pat.data

/-- Model of String.prototype.toLowerCase, character by character. -/
def jsToLower (s : String) : String :=
  String.mk (s.data.map Char.toLower)

/-- Model of String.prototype.trim: drop whitespace from both ends. -/
def jsTrim (s : String) : String :=
  String.mk (((s.data.dropWhile Char.isWhitespace).reverse.dropWhile Char.isWhitespace).reverse)

-- ─── Streak engine (src/App.tsx, getStreak, lines 73-89) ──────────────────────

/-- The dates list built at the top of getStreak: filter the completions of the
habit, keep the dates, sort ascending and reverse (the sort plus reverse of the
source; the walk only uses membership). -/
def streakDates (habitId : String) (completions : List Completion) : List Int :=
  (((completions.filter (fun c => c.habitId == habitId)).map (fun c => c.date)).mergeSort
      (fun a b => decide (a ≤ b))).reverse

/-- The for-loop of getStreak. Arguments mirror the mutable locals of the
source: cur is the day the walk is looking at, streak the counter, i the loop
index, fuel the remaining iterations (365 - i). -/
def streakLoop (dates : List Int) : Int → Nat → Nat → Nat → Nat
  | _, streak, _, 0 => streak
  | cur, streak, i, fuel + 1 =>
    if dates.contains cur then streakLoop dates (cur - 1) (streak + 1) (i + 1) fuel
    else if i == 0 then streakLoop dates (cur - 1) streak (i + 1) fuel
    else streak

/-- getStreak from src/App.tsx: early return 0 when the habit has no
completions, otherwise walk backward from today for at most 365 iterations. -/
def getStreak (habitId : String) (completions : List Completion) (today : Int) : Nat :=
  let dates := streakDates habitId completions
  if dates.isEmpty then 0 else streakLoop dates today 0 0 365

-- ─── Streak specification (written from the words of the spec, section 4.1) ───

/-- Completion test used throughout: the habit has a completion on day d. This
is the shape completions.some(c.habitId === habitId && c.date === d) of the
source. -/
def doneB (habitId : String) (completions : List Completion) (d : Int) : Bool :=
  completions.any (fun c => c.habitId == habitId && c.date == d)

/-- Specification-side counter: length of the run of consecutive completed
days starting at day start and walking backward, capped by fuel. -/
def runLen (done : Int → Bool) : Int → Nat → Nat
  | _, 0 => 0
  | start, fuel + 1 => if done start then runLen done (start - 1) fuel + 1 else 0

/-- Streak computation written from the words of the spec (section 4.1): if
today is completed, count the consecutive completed days from today within the
365-day horizon; if today is missing this does not terminate the walk and does
not increment the counter, so count from yesterday over the remaining 364
offsets; a missing day at offset one or more terminates the walk. -/
def streakSpec (habitId : String) (completions : List Completion) (today : Int) : Nat :=
  if doneB habitId completions today then runLen (doneB habitId completions) today 365
  else runLen (doneB habitId completions) (today - 1) 364

-- ─── Completion toggle (src/App.tsx, toggleComplete, lines 338-345) ───────────

/-- toggleComplete from src/App.tsx: if a completion for (habitId, t) exists,
filter it out, otherwise append one. The habit list is not consulted, so a
habitId with no matching habit is tolerated. -/
def toggleComplete (habitId : String) (completions : List Completion) (t : Int) :
    List Completion :=
  let already := completions.any (fun c => c.habitId == habitId && c.date == t)
  if already then completions.filter (fun c => !(c.habitId == habitId && c.date == t))
  else completions ++ [{ habitId := habitId, date := t }]

-- ─── Habit lifecycle (src/App.tsx, deleteHabit 325-336, addHabit 303-323) ─────

/-- The confirmed branch of deleteHabit from src/App.tsx: filter the habit with
the given id out of the habit list and filter its completions out of the
completion list. -/
def deleteHabit (id : String) (st : List Habit × List Completion) :
    List Habit × List Completion :=
  (st.1.filter (fun h => h.id != id), st.2.filter (fun c => c.habitId != id))

-- ─── Suggestion lookup (src/lib/videos.ts and src/lib/playlists.ts) ──────────

/-- Entry of VIDEO_MAP in src/lib/videos.ts. -/
structure VideoEntry where
  keywords : List String
  videoId : String
  title : String
deriving DecidableEq

/-- Result shape of suggestVideo. -/
structure VideoSuggestion where
  videoId : String
  title : String
deriving DecidableEq

/-- VIDEO_MAP from src/lib/videos.ts, in source order. -/
def VIDEO_MAP : List VideoEntry := [
  ⟨["meditat", "mindful", "breathe", "breath", "calm", "relax"], "inpok4MKVLM", "5-Minute Meditation You Can Do Anywhere"⟩,
  ⟨["run", "jog", "cardio", "marathon", "sprint"], "iSFpgQUGCVo", "How to Start Running (and Actually Enjoy It)"⟩,
  ⟨["workout", "exercise", "gym", "lift", "strength", "fitness", "train"], "vc1E5CfRfos", "The Science of Getting Stronger"⟩,
  ⟨["read", "book", "learn", "study"], "YjPDMHB_oEY", "How to Read More Books"⟩,
  ⟨["journal", "write", "diary", "gratitud"], "dArgOrm98Bk", "The Life-Changing Habit of Journaling"⟩,
  ⟨["sleep", "wake", "morning", "routine", "rise"], "nm1TxQj9IsQ", "The Perfect Morning Routine"⟩,
  ⟨["water", "hydrat", "drink"], "aQiGDPuk3EQ", "Why Staying Hydrated Is So Important"⟩,
  ⟨["diet", "eat", "food", "nutrition", "vegetable", "fruit", "cook"], "fqhYBTg73fw", "How to Build Healthy Eating Habits"⟩,
  ⟨["walk", "step", "outdoor", "nature", "hike"], "bnHMDMxLKhw", "The Surprising Benefits of Walking"⟩,
  ⟨["stretch", "yoga", "flex", "mobil"], "4pKly2JojMw", "10-Minute Morning Yoga for Beginners"⟩,
  ⟨["cod", "program", "develop", "hack", "build", "software"], "NtfbWkxJTHw", "How to Build a Coding Habit"⟩,
  ⟨["langua", "speak", "spanish", "french", "german", "chinese", "japanese"], "illApgaLgGA", "How to Learn Any Language"⟩,
  ⟨["saving", "save", "money", "financ", "budget", "invest"], "HQzoZfc3GwQ", "How to Build Better Money Habits"⟩,
  ⟨["social", "phone", "screen", "detox", "digital"], "OoFSMRHgSHA", "How to Break Your Phone Addiction"⟩,
  ⟨["focus", "productiv", "deep work", "pomodoro", "distract"], "WXBA4eWskrc", "How to Focus Like a Navy SEAL"⟩,
  ⟨["cold", "shower", "ice"], "NUYP3bBnBY0", "Cold Showers — What Happens to Your Body"⟩,
  ⟨["vitamin", "supplement", "health"], "fLNJLIKMFsM", "Daily Habits for Long-Term Health"⟩,
  ⟨["gratitude", "thankful", "positive", "mindset"], "WPPPFqsECz0", "The Power of Gratitude"⟩]

/-- FALLBACK of src/lib/videos.ts. -/
def videoFallback : VideoSuggestion :=
  ⟨"ZXsQAXx_ao0", "The Power of Small Habits — James Clear"⟩

/-- The for-loop with early return inside suggestVideo. -/
def findVideo : List VideoEntry → String → VideoSuggestion
  | [], _ => videoFallback
  | e :: rest, lower =>
    if e.keywords.any (fun kw => strIncludes lower kw) then ⟨e.videoId, e.title⟩
    else findVideo rest lower

/-- suggestVideo from src/lib/videos.ts (lines 42-50). -/
def suggestVideo (habitName : String) : VideoSuggestion :=
  findVideo VIDEO_MAP (jsToLower habitName)

/-- Entry of PLAYLIST_MAP in src/lib/playlists.ts. -/
structure PlaylistEntry where
  keywords : List String
  playlistId : String
  title : String
  description : String
  category : String
  emoji : String
  color : String
deriving DecidableEq

/-- PLAYLIST_MAP from src/lib/playlists.ts, in source order. -/
def PLAYLIST_MAP : List PlaylistEntry := [
  ⟨["focus", "productiv", "deep work", "study", "pomodoro", "work", "cod", "program", "develop"],
    "PLOfLYVXrwqBwbNnkVWUfFHFpbmmr5VJo_", "Deep Focus — Study & Work",
    "Instrumental music for deep concentration", "Focus", "🎯", "#EEF2FF"⟩,
  ⟨["workout", "gym", "lift", "strength", "fitness", "train", "exercise"],
    "PLx65qkgCWNJIgq1Mj0rtsthQSXe3bQoLt", "Ultimate Workout Motivation",
    "High energy tracks to power your training", "Workout", "💪", "#FFF1F2"⟩,
  ⟨["run", "jog", "cardio", "marathon", "sprint"],
    "PLgzTt0k8mXzEk586ze4BjKDn2KKOIUmMX", "Running Motivation Mix",
    "Upbeat beats to keep your pace up", "Running", "🏃", "#FFF7ED"⟩,
  ⟨["meditat", "mindful", "breathe", "breath", "calm", "relax"],
    "PLQ_PIlf6OzqJpURN4dFxHV82l4vV7OEKZ", "Meditation & Mindfulness",
    "Calm ambient sounds for meditation", "Calm", "🧘", "#F0FDF4"⟩,
  ⟨["sleep", "rest", "nap", "bedtime"],
    "PLtBQA7FZXBU2E2RcRLNnFHhzNKERnMV-L", "Sleep Sounds & Relaxation",
    "Gentle sounds to help you drift off", "Sleep", "😴", "#F5F3FF"⟩,
  ⟨["yoga", "stretch", "flex", "mobil", "pilates"],
    "PLgzTt0k8mXzHQCkrHxBTQNLIUUMm8XEIQ", "Yoga Flow Music",
    "Peaceful music for flow and flexibility", "Yoga", "🌿", "#ECFDF5"⟩,
  ⟨["morning", "wake", "rise", "routine"],
    "PLgzTt0k8mXzEk586ze4BjKDn2KKOIUmMX", "Morning Energy Boost",
    "Start your day with positive vibes", "Morning", "☀️", "#FFFBEB"⟩,
  ⟨["read", "book", "learn"],
    "PLOfLYVXrwqBwbNnkVWUfFHFpbmmr5VJo_", "Reading Ambience",
    "Calm background music for reading", "Reading", "📚", "#EFF6FF"⟩,
  ⟨["journal", "write", "diary"],
    "PLQ_PIlf6OzqJpURN4dFxHV82l4vV7OEKZ", "Journaling Atmosphere",
    "Reflective ambient sounds for writing", "Journal", "✍️", "#FDF4FF"⟩,
  ⟨["walk", "step", "outdoor", "nature", "hike"],
    "PLgzTt0k8mXzHQCkrHxBTQNLIUUMm8XEIQ", "Nature Walk Vibes",
    "Easy listening for your daily walk", "Walk", "🚶", "#F0FDF4"⟩,
  ⟨["cook", "food", "eat", "nutrition", "diet", "meal"],
    "PLx65qkgCWNJIgq1Mj0rtsthQSXe3bQoLt", "Cooking Vibes",
    "Feel-good music for the kitchen", "Cooking", "🍳", "#FFF7ED"⟩,
  ⟨["langua", "spanish", "french", "german", "chinese", "japanese", "speak"],
    "PLOfLYVXrwqBwbNnkVWUfFHFpbmmr5VJo_", "Language Learning Focus",
    "Concentration music for language study", "Language", "🌍", "#EEF2FF"⟩,
  ⟨["cold", "shower", "ice"],
    "PLx65qkgCWNJIgq1Mj0rtsthQSXe3bQoLt", "Cold Shower Pump-Up",
    "High energy to get you through it", "Energy", "⚡", "#FFF1F2"⟩,
  ⟨["gratitude", "thankful", "positive", "mindset", "affirm"],
    "PLQ_PIlf6OzqJpURN4dFxHV82l4vV7OEKZ", "Positive Mindset Music",
    "Uplifting tracks for a grateful mindset", "Mindset", "✨", "#FFFBEB"⟩,
  ⟨["saving", "money", "financ", "budget", "invest"],
    "PLOfLYVXrwqBwbNnkVWUfFHFpbmmr5VJo_", "Deep Work — Finance Mode",
    "Focus music for planning and analysis", "Finance", "💰", "#F0FDF4"⟩]

/-- FALLBACK of src/lib/playlists.ts. -/
def playlistFallback : PlaylistEntry :=
  ⟨[], "PLx65qkgCWNJIgq1Mj0rtsthQSXe3bQoLt", "Motivation & Success",
    "Fuel your habits with great music", "Motivation", "🚀", "#EEF2FF"⟩

/-- The for-loop with early return inside suggestPlaylist. -/
def findPlaylist : List PlaylistEntry → String → PlaylistEntry
  | [], _ => playlistFallback
  | e :: rest, lower =>
    if e.keywords.any (fun kw => strIncludes lower kw) then e
    else findPlaylist rest lower

/-- suggestPlaylist from src/lib/playlists.ts (lines 139-147). -/
def suggestPlaylist (habitName : String) : PlaylistEntry :=
  findPlaylist PLAYLIST_MAP (jsToLower habitName)

-- ─── Habit creation (src/App.tsx, addHabit, lines 303-323) ───────────────────

/-- addHabit from src/App.tsx: trim the input, silently return the unchanged
habit list when the trimmed name is empty, otherwise call the two suggestion
lookups once with the trimmed name and append the new habit. The generated id
and the creation timestamp, produced from the clock in the source, are
explicit parameters here. -/
def addHabit (input newId createdAt : String) (habits : List Habit) : List Habit :=
  let name := jsTrim input
  if name.isEmpty then habits
  else
    let v := suggestVideo name
    let playlist := suggestPlaylist name
    let habit : Habit :=
      { id := newId, name := name, createdAt := createdAt,
        videoId := v.videoId, videoTitle := v.title,
        playlistId := playlist.playlistId, playlistTitle := playlist.title,
        playlistCategory := playlist.category, playlistEmoji := playlist.emoji,
        playlistColor := playlist.color }
    habits ++ [habit]

/-- State-level view of addHabit: habit creation writes the habit collection
and leaves the completion collection untouched. -/
def addHabitState (input newId createdAt : String) (st : List Habit × List Completion) :
    List Habit × List Completion :=
  (addHabit input newId createdAt st.1, st.2)

-- ─── Invariant of section 3 of the spec ──────────────────────────────────────

/-- At most one completion per habit and day: no two entries of the collection
agree on both habitId and date. -/
def AtMostOnePerDay (C : List Completion) : Prop :=
  C.Pairwise (fun a b => ¬(a.habitId = b.habitId ∧ a.date = b.date))

-- ─── Day representation (src/App.tsx, todayStr, lines 58-60) ─────────────────

/-- Model of a wall-clock instant: minutes since the Unix epoch, UTC. -/
def utcCalendarDay (t : Int) : Int := t.fdiv 1440

/-- todayStr of src/App.tsx formats toISOString().slice(0, 10), and
toISOString always renders the instant in UTC, so the day it returns is the
UTC calendar day of the instant. -/
def todayStrDay (t : Int) : Int := utcCalendarDay t

/-- Day value the spec asks for (section 6): the calendar day in the local
timezone of the process, with boundaries at local midnight; off is the local
UTC offset in minutes. -/
def localCalendarDay (t off : Int) : Int := (t + off).fdiv 1440

-- ─── Persistence gateway (src/App.tsx, lines 284-301) ────────────────────────

/-- Storage key of the habit collection. -/
def HABITS_KEY : String := "@habits"

/-- Storage key of the completion collection. -/
def COMPLETIONS_KEY : String := "@completions"

/-- AsyncStorage model: a total map from string keys to optional stored
strings. -/
def Store : Type := String → Option String

/-- AsyncStorage.setItem. -/
def setItem (key value : String) (st : Store) : Store :=
  fun k => if k = key then some value else st k

/-- JSON string escaping of quote and backslash (the escapes the two record
shapes can need). -/
def escapeChar (c : Char) : List Char :=
  if c = '\"' ∨ c = '\\' then ['\\', c] else [c]

/-- Escaped body of a JSON string. -/
def encodeStringChars (s : List Char) : List Char :=
  s.flatMap escapeChar

/-- JSON rendering of a string value: quote, escaped body, quote. -/
def encodeJsonString (s : String) : List Char :=
  '\"' :: (encodeStringChars s.data ++ ['\"'])

/-- Decimal digit to character. -/
def digitChar (d : Nat) : Char := Char.ofNat (48 + d)

/-- Decimal rendering of a natural number, most significant digit first. -/
def encodeNatChars (n : Nat) : List Char :=
  if n = 0 then ['0'] else (Nat.digits 10 n).reverse.map digitChar

/-- Decimal rendering of an integer. The day number of a completion is stored
through this injective image, standing for the serialized day string of the
source. -/
def encodeIntChars (n : Int) : List Char :=
  if n < 0 then '-' :: encodeNatChars n.natAbs else encodeNatChars n.natAbs

/-- Opening brace and quoted key of the first field of a JSON object. -/
def firstFieldKey (k : String) : List Char :=
  '\x7b' :: (encodeJsonString k ++ [':'])

/-- Comma and quoted key of a later field of a JSON object. -/
def nextFieldKey (k : String) : List Char :=
  ',' :: (encodeJsonString k ++ [':'])

/-- Keys of the habit record in declaration order, the order JavaScript object
serialization emits them. -/
def habitKeys : List String :=
  ["id", "name", "createdAt", "videoId", "videoTitle",
   "playlistId", "playlistTitle", "playlistCategory", "playlistEmoji", "playlistColor"]

/-- Field values of a habit record in the same order. -/
def habitFieldValues (h : Habit) : List String :=
  [h.id, h.name, h.createdAt, h.videoId, h.videoTitle,
   h.playlistId, h.playlistTitle, h.playlistCategory, h.playlistEmoji, h.playlistColor]

/-- Serialized field list of a JSON object whose values are all strings. -/
def encodeFields : List (String × String) → Bool → List Char
  | [], _ => []
  | kv :: rest, first =>
    (if first then firstFieldKey kv.1 else nextFieldKey kv.1) ++
      (encodeJsonString kv.2 ++ encodeFields rest false)

/-- JSON.stringify of one habit record. -/
def encodeHabit (h : Habit) : List Char :=
  encodeFields (habitKeys.zip (habitFieldValues h)) true ++ ['\x7d']

/-- JSON.stringify of one completion record. -/
def encodeCompletion (c : Completion) : List Char :=
  firstFieldKey "habitId" ++ encodeJsonString c.habitId ++
  nextFieldKey "date" ++ encodeIntChars c.date ++ ['\x7d']

/-- JSON.stringify of an array of records. -/
def encodeArray {α : Type} (enc : α → List Char) : List α → List Char
  | [] => ['[', ']']
  | x :: xs => '[' :: (enc x ++ (xs.flatMap (fun y => ',' :: enc y) ++ [']']))

/-- Expect the given literal character sequence and return the remainder. -/
def parseExact : List Char → List Char → Option (List Char)
  | [], s => some s
  | _ :: _, [] => none
  | c :: cs, x :: xs => if x = c then parseExact cs xs else none

/-- Parse the body of a JSON string up to the closing quote, undoing the
escapes. -/
def parseStringChars : List Char → Option (List Char × List Char)
  | [] => none
  | c :: rest =>
    if c = '\"' then some ([], rest)
    else if c = '\\' then
      match rest with
      | [] => none
      | c2 :: rest2 => (parseStringChars rest2).map (fun p => (c2 :: p.1, p.2))
    else (parseStringChars rest).map (fun p => (c :: p.1, p.2))

/-- Parse a JSON string value including its opening quote. -/
def parseJsonString : List Char → Option (String × List Char)
  | [] => none
  | c :: rest =>
    if c = '\"' then (parseStringChars rest).map (fun p => (String.mk p.1, p.2))
    else none

/-- Decimal digit value of a character, when it is a digit. -/
def charDigitVal (c : Char) : Option Nat :=
  if 48 ≤ c.toNat ∧ c.toNat ≤ 57 then some (c.toNat - 48) else none

/-- Consume a maximal run of decimal digits, most significant first. -/
def parseDigits : List Char → List Nat × List Char
  | [] => ([], [])
  | c :: rest =>
    match charDigitVal c with
    | some d => ((d :: (parseDigits rest).1), (parseDigits rest).2)
    | none => ([], c :: rest)

/-- Parse a nonempty run of decimal digits as a natural number. -/
def parseNatChars (s : List Char) : Option (Nat × List Char) :=
  match parseDigits s with
  | ([], _) => none
  | (d :: ds, r) => some (Nat.ofDigits 10 (d :: ds).reverse, r)

/-- Parse an optional minus sign and a decimal natural number. -/
def parseIntChars : List Char → Option (Int × List Char)
  | [] => none
  | c :: rest =>
    if c = '-' then (parseNatChars rest).map (fun p => (-(p.1 : Int), p.2))
    else (parseNatChars (c :: rest)).map (fun p => ((p.1 : Int), p.2))

/-- Parse the field list of a JSON object with the given keys, all values
strings. -/
def parseFields : List String → Bool → List Char → Option (List String × List Char)
  | [], _, s => some ([], s)
  | k :: ks, first, s =>
    (parseExact (if first then firstFieldKey k else nextFieldKey k) s).bind fun s1 =>
    (parseJsonString s1).bind fun p =>
    (parseFields ks false p.2).map fun q => (p.1 :: q.1, q.2)

/-- Parse one serialized habit record. -/
def parseHabit (s : List Char) : Option (Habit × List Char) :=
  (parseFields habitKeys true s).bind fun p =>
  (parseExact ['\x7d'] p.2).bind fun s2 =>
  match p.1 with
  | [a, b, c, d, e, f, g, h, i, j] => some (Habit.mk a b c d e f g h i j, s2)
  | _ => none

/-- Parse one serialized completion record. -/
def parseCompletion (s : List Char) : Option (Completion × List Char) :=
  (parseExact (firstFieldKey "habitId") s).bind fun s1 =>
  (parseJsonString s1).bind fun p1 =>
  (parseExact (nextFieldKey "date") p1.2).bind fun s2 =>
  (parseIntChars s2).bind fun p2 =>
  (parseExact ['\x7d'] p2.2).map fun sEnd =>
  (Completion.mk p1.1 p2.1, sEnd)

/-- Parse the continuation of a JSON array after one item: a closing bracket,
or a comma and a further item. The fuel bounds the number of remaining
items. -/
def parseItemsRest {α : Type} (p : List Char → Option (α × List Char)) :
    Nat → List Char → Option (List α × List Char)
  | _, [] => none
  | fuel, c :: rest =>
    if c = ']' then some ([], rest)
    else if c = ',' then
      match fuel with
      | 0 => none
      | fuel + 1 =>
        (p rest).bind fun q =>
        (parseItemsRest p fuel q.2).map fun r => (q.1 :: r.1, r.2)
    else none

/-- Parse a JSON array of records. -/
def parseArray {α : Type} (p : List Char → Option (α × List Char)) (fuel : Nat) :
    List Char → Option (List α × List Char)
  | [] => none
  | c :: rest =>
    if c = '[' then
      match rest with
      | [] => none
      | c2 :: rest2 =>
        if c2 = ']' then some ([], rest2)
        else
          (p (c2 :: rest2)).bind fun q =>
          (parseItemsRest p fuel q.2).map fun r => (q.1 :: r.1, r.2)
    else none

/-- JSON.stringify of the habit collection. -/
def stringifyHabits (hs : List Habit) : String :=
  String.mk (encodeArray encodeHabit hs)

/-- JSON.stringify of the completion collection. -/
def stringifyCompletions (cs : List Completion) : String :=
  String.mk (encodeArray encodeCompletion cs)

/-- JSON.parse of a stored habit record: the whole string must be consumed. -/
def parseHabits (s : String) : Option (List Habit) :=
  match parseArray parseHabit s.data.length s.data with
  | some (hs, []) => some hs
  | _ => none

/-- JSON.parse of a stored completion record. -/
def parseCompletions (s : String) : Option (List Completion) :=
  match parseArray parseCompletion s.data.length s.data with
  | some (cs, []) => some cs
  | _ => none

/-- Storage half of saveHabits in src/App.tsx: write the serialized habit
collection under the habits key. -/
def saveHabitsStore (hs : List Habit) (st : Store) : Store :=
  setItem HABITS_KEY (stringifyHabits hs) st

/-- Storage half of saveCompletions in src/App.tsx. -/
def saveCompletionsStore (cs : List Completion) (st : Store) : Store :=
  setItem COMPLETIONS_KEY (stringifyCompletions cs) st

/-- Load effect of src/App.tsx (lines 284-291): read both records, treat a
missing record as the empty collection, fail when a present record does not
parse. -/
def loadState (st : Store) : Option (List Habit × List Completion) :=
  (match st HABITS_KEY with
   | none => some []
   | some s => parseHabits s).bind fun hs =>
  (match st COMPLETIONS_KEY with
   | none => some []
   | some s => parseCompletions s).map fun cs => (hs, cs)

/-- True when the character list does not start with a decimal digit, so a
digit-run parse stops exactly at its head. -/
def headNotDigit : List Char → Prop
  | [] => True
  | c :: _ => charDigitVal c = none

-- ─── Sample values used by witnesses ─────────────────────────────────────────

/-- Concrete habit used by closed witness statements. -/
def sampleHabit : Habit :=
  ⟨"a", "n", "c", "v", "vt", "p", "pt", "pc", "pe", "co"⟩

-- ─── Lemmas: streak engine ───────────────────────────────────────────────────

/-- Unfolding equation of streakLoop for one more iteration. -/
theorem streakLoop_succ (dates : List Int) (cur : Int) (streak i fuel : Nat) :
    streakLoop dates cur streak i (fuel + 1) =
      if dates.contains cur then streakLoop dates (cur - 1) (streak + 1) (i + 1) fuel
      else if i == 0 then streakLoop dates (cur - 1) streak (i + 1) fuel
      else streak := rfl

/-- Unfolding equation of runLen for one more day. -/
theorem runLen_succ (done : Int → Bool) (start : Int) (fuel : Nat) :
    runLen done start (fuel + 1) =
      if done start then runLen done (start - 1) fuel + 1 else 0 := rfl

/-- A run over an everywhere-false completion test is empty. -/
theorem runLen_eq_zero (done : Int → Bool) (h : ∀ d, done d = false) :
    ∀ (start : Int) (fuel : Nat), runLen done start fuel = 0 := by
  intro start fuel
  cases fuel with
  | zero => rfl
  | succ n => rw [runLen_succ, h start]; simp

/-- After the first iteration the loop counts exactly the consecutive run of
contained days. -/
theorem streakLoop_run (dates : List Int) :
    ∀ (fuel : Nat) (cur : Int) (streak i : Nat), i ≠ 0 →
      streakLoop dates cur streak i fuel
        = streak + runLen (fun d => dates.contains d) cur fuel := by
  intro fuel
  induction fuel with
  | zero => intro cur streak i _; rfl
  | succ n ih =>
    intro cur streak i hi
    rw [streakLoop_succ, runLen_succ]
    by_cases hc : dates.contains cur
    · rw [if_pos hc, if_pos hc, ih (cur - 1) (streak + 1) (i + 1) (by omega)]
      omega
    · have hi0 : (i == 0) = false := by
        simpa using hi
      rw [if_neg hc, if_neg hc, hi0]
      simp

/-- Membership in the dates list built by getStreak agrees with the completion
test doneB. -/
theorem streakDates_contains (H : String) (C : List Completion) (d : Int) :
    (streakDates H C).contains d = doneB H C d := by
  rw [Bool.eq_iff_iff]
  simp only [streakDates, doneB, List.contains, List.elem_iff, List.mem_reverse,
    (List.mergeSort_perm _ _).mem_iff, List.mem_map, List.mem_filter,
    List.any_eq_true, Bool.and_eq_true, beq_iff_eq]
  constructor
  · rintro ⟨c, ⟨hc, hH⟩, hd⟩
    exact ⟨c, hc, hH, hd⟩
  · rintro ⟨c, hc, hH, hd⟩
    exact ⟨c, ⟨hc, hH⟩, hd⟩

/-- The dates list is empty exactly when the habit has no completion. -/
theorem streakDates_isEmpty (H : String) (C : List Completion) :
    (streakDates H C).isEmpty = true ↔ ∀ d, doneB H C d = false := by
  constructor
  · intro he d
    rw [← streakDates_contains]
    rcases List.isEmpty_iff.mp he with hnil
    rw [hnil]
    rfl
  · intro hall
    rw [List.isEmpty_iff]
    by_contra hne
    rcases List.exists_mem_of_ne_nil _ hne with ⟨d, hd⟩
    have hcon : (streakDates H C).contains d = true := List.elem_iff.mpr hd
    rw [streakDates_contains, hall d] at hcon
    exact Bool.false_ne_true hcon

/-- The streak walk of the source computes exactly the streak described by the
spec. -/
theorem getStreak_eq_streakSpec (H : String) (C : List Completion) (today : Int) :
    getStreak H C today = streakSpec H C today := by
  have hgs : getStreak H C today
      = if (streakDates H C).isEmpty then 0
        else streakLoop (streakDates H C) today 0 0 365 := rfl
  rw [hgs]
  unfold streakSpec
  by_cases he : (streakDates H C).isEmpty = true
  · have hall : ∀ d, doneB H C d = false := (streakDates_isEmpty H C).mp he
    rw [if_pos he, if_neg (by simp [hall today]), runLen_eq_zero _ hall]
  · rw [if_neg he]
    have hfun : (fun d => (streakDates H C).contains d) = doneB H C :=
      funext (streakDates_contains H C)
    have hstep : streakLoop (streakDates H C) today 0 0 365
        = if (streakDates H C).contains today
          then streakLoop (streakDates H C) (today - 1) 1 1 364
          else streakLoop (streakDates H C) (today - 1) 0 1 364 := by
      show streakLoop (streakDates H C) today 0 0 (364 + 1) = _
      rw [streakLoop_succ]
      simp
    have hrun : runLen (doneB H C) today 365
        = if doneB H C today then runLen (doneB H C) (today - 1) 364 + 1 else 0 :=
      runLen_succ _ _ 364
    by_cases hc : doneB H C today = true
    · have hcont : (streakDates H C).contains today = true := by
        rw [streakDates_contains]; exact hc
      rw [hstep, if_pos hcont, if_pos hc, hrun, if_pos hc,
        streakLoop_run _ 364 (today - 1) 1 1 (by omega), hfun]
      omega
    · have hcont : ¬((streakDates H C).contains today = true) := by
        rw [streakDates_contains]; exact hc
      rw [hstep, if_neg hcont, if_neg hc,
        streakLoop_run _ 364 (today - 1) 0 1 (by omega), hfun]
      omega

/-- The streak depends on the completion collection only through the per-day
completion test of the habit. -/
theorem getStreak_congr (H : String) (C₁ C₂ : List Completion) (today : Int)
    (h : ∀ d, doneB H C₁ d = doneB H C₂ d) :
    getStreak H C₁ today = getStreak H C₂ today := by
  rw [getStreak_eq_streakSpec, getStreak_eq_streakSpec]
  unfold streakSpec
  rw [funext h]

/-- C1: for every habit id and completion collection, getStreak walks backward
day-by-day from today for at most 365 days and returns the count of
consecutive completed days: a missing completion at offset 0 does not
terminate the walk and does not increment the counter, a missing completion
at any later offset terminates the walk, and each completed day increments
the counter and continues the walk (first conjunct: the walk equals the spec
streak streakSpec); in particular, with completions on the two days before
today only, the result is 2 (second conjunct). -/
theorem streak_walk_correct :
    (∀ (H : String) (C : List Completion) (today : Int),
      getStreak H C today = streakSpec H C today) ∧
    (∀ (H : String) (today : Int),
      getStreak H [⟨H, today - 1⟩, ⟨H, today - 2⟩] today = 2) := by
  refine ⟨getStreak_eq_streakSpec, ?_⟩
  intro H today
  rw [getStreak_eq_streakSpec]
  have hd0 : doneB H [⟨H, today - 1⟩, ⟨H, today - 2⟩] today = false := by
    simp [doneB]
    try omega
  have hd1 : doneB H [⟨H, today - 1⟩, ⟨H, today - 2⟩] (today - 1) = true := by
    simp [doneB]
  have hd2 : doneB H [⟨H, today - 1⟩, ⟨H, today - 2⟩] (today - 1 - 1) = true := by
    simp [doneB]
    try omega
  have hd3 : doneB H [⟨H, today - 1⟩, ⟨H, today - 2⟩] (today - 1 - 1 - 1) = false := by
    simp [doneB]
    try omega
  have s1 : runLen (doneB H [⟨H, today - 1⟩, ⟨H, today - 2⟩]) (today - 1) 364
      = if doneB H [⟨H, today - 1⟩, ⟨H, today - 2⟩] (today - 1)
        then runLen (doneB H [⟨H, today - 1⟩, ⟨H, today - 2⟩]) (today - 1 - 1) 363 + 1
        else 0 :=
    runLen_succ _ _ 363
  have s2 : runLen (doneB H [⟨H, today - 1⟩, ⟨H, today - 2⟩]) (today - 1 - 1) 363
      = if doneB H [⟨H, today - 1⟩, ⟨H, today - 2⟩] (today - 1 - 1)
        then runLen (doneB H [⟨H, today - 1⟩, ⟨H, today - 2⟩]) (today - 1 - 1 - 1) 362 + 1
        else 0 :=
    runLen_succ _ _ 362
  have s3 : runLen (doneB H [⟨H, today - 1⟩, ⟨H, today - 2⟩]) (today - 1 - 1 - 1) 362
      = if doneB H [⟨H, today - 1⟩, ⟨H, today - 2⟩] (today - 1 - 1 - 1)
        then runLen (doneB H [⟨H, today - 1⟩, ⟨H, today - 2⟩]) (today - 1 - 1 - 1 - 1) 361 + 1
        else 0 :=
    runLen_succ _ _ 361
  unfold streakSpec
  rw [if_neg (by simp [hd0]), s1, if_pos hd1, s2, if_pos hd2, s3, if_neg (by simp [hd3])]

-- ─── Lemmas: completion toggle ───────────────────────────────────────────────

/-- When a completion for today exists, toggleComplete filters the matching
entries out. -/
theorem toggleComplete_done (H : String) (C : List Completion) (t : Int)
    (h : doneB H C t = true) :
    toggleComplete H C t = C.filter (fun c => !(c.habitId == H && c.date == t)) := by
  have h' : (C.any fun c => c.habitId == H && c.date == t) = true := h
  simp only [toggleComplete, h']
  rfl

/-- When no completion for today exists, toggleComplete appends one. -/
theorem toggleComplete_not_done (H : String) (C : List Completion) (t : Int)
    (h : doneB H C t = false) :
    toggleComplete H C t = C ++ [⟨H, t⟩] := by
  have h' : (C.any fun c => c.habitId == H && c.date == t) = false := h
  simp only [toggleComplete, h']
  rfl

/-- C2: toggling habit H on day t removes the completion for (H, t) when it is
present (membership characterization plus sublist: nothing else changes) and
otherwise appends exactly the completion for (H, t); the operation is total,
with no error case, and never consults the habit collection, so an id without
a matching habit is tolerated. -/
theorem toggle_today_spec (H : String) (C : List Completion) (t : Int) :
    if doneB H C t = true then
      (∀ c : Completion, c ∈ toggleComplete H C t
        ↔ (c ∈ C ∧ ¬(c.habitId = H ∧ c.date = t))) ∧
        (toggleComplete H C t).Sublist C
    else toggleComplete H C t = C ++ [⟨H, t⟩] := by
  by_cases h : doneB H C t = true
  · rw [if_pos h]
    refine ⟨?_, ?_⟩
    · intro c
      rw [toggleComplete_done H C t h, List.mem_filter]
      simp only [Bool.not_eq_true', Bool.and_eq_false_iff, beq_eq_false_iff_ne, ne_eq,
        Bool.and_eq_true, beq_iff_eq, not_and]
      tauto
    · rw [toggleComplete_done H C t h]
      exact List.filter_sublist C
  · rw [if_neg h]
    exact toggleComplete_not_done H C t (by simpa using h)

/-- C4: toggling the same habit twice on the same day leaves the streak of that
habit unchanged. -/
theorem double_toggle_streak_noop (H : String) (C : List Completion) (today : Int) :
    getStreak H (toggleComplete H (toggleComplete H C today) today) today
      = getStreak H C today := by
  by_cases h : doneB H C today = true
  · have h1 : toggleComplete H C today
        = C.filter (fun c => !(c.habitId == H && c.date == today)) :=
      toggleComplete_done H C today h
    have h2 : doneB H (toggleComplete H C today) today = false := by
      rw [h1]
      unfold doneB
      rw [List.any_eq_false]
      intro c hc
      rw [List.mem_filter, Bool.not_eq_true'] at hc
      simp [hc.2]
    have h3 : toggleComplete H (toggleComplete H C today) today
        = toggleComplete H C today ++ [⟨H, today⟩] :=
      toggleComplete_not_done _ _ _ h2
    have hex : ∃ c, c ∈ C ∧ c.habitId = H ∧ c.date = today := by
      have hh := h
      unfold doneB at hh
      rw [List.any_eq_true] at hh
      rcases hh with ⟨c, hc, hm⟩
      rw [Bool.and_eq_true, beq_iff_eq, beq_iff_eq] at hm
      exact ⟨c, hc, hm.1, hm.2⟩
    rw [h3, h1]
    apply getStreak_congr
    intro d
    rw [Bool.eq_iff_iff]
    unfold doneB
    rw [List.any_append]
    simp only [List.any_eq_true, Bool.or_eq_true, List.mem_filter, Bool.and_eq_true,
      beq_iff_eq, List.any_cons, List.any_nil, Bool.or_false, Bool.not_eq_true']
    constructor
    · rintro (⟨c, ⟨hcC, _⟩, hH, hd⟩ | ⟨_, hd⟩)
      · exact ⟨c, hcC, hH, hd⟩
      · rcases hex with ⟨c, hcC, hcH, hcd⟩
        exact ⟨c, hcC, hcH, by omega⟩
    · rintro ⟨c, hcC, hH, hd⟩
      by_cases hdt : c.date = today
      · right
        exact ⟨trivial, by omega⟩
      · left
        refine ⟨c, ⟨hcC, ?_⟩, hH, hd⟩
        simp [beq_eq_false_iff_ne, hdt]
  · have h0 : doneB H C today = false := by simpa using h
    have h1 : toggleComplete H C today = C ++ [⟨H, today⟩] :=
      toggleComplete_not_done _ _ _ h0
    have h2 : doneB H (toggleComplete H C today) today = true := by
      rw [h1]
      unfold doneB
      rw [List.any_append]
      simp
    have h3 : toggleComplete H (toggleComplete H C today) today
        = (C ++ [(⟨H, today⟩ : Completion)]).filter
            (fun c => !(c.habitId == H && c.date == today)) := by
      rw [← h1]
      exact toggleComplete_done _ _ _ h2
    have hC : C.filter (fun c => !(c.habitId == H && c.date == today)) = C := by
      rw [List.filter_eq_self]
      intro c hc
      unfold doneB at h0
      rw [List.any_eq_false] at h0
      have hnt := h0 c hc
      rw [Bool.not_eq_true']
      exact Bool.eq_false_iff.mpr hnt
    have h4 : (C ++ [(⟨H, today⟩ : Completion)]).filter
        (fun c => !(c.habitId == H && c.date == today)) = C := by
      rw [List.filter_append, hC]
      simp
    rw [h3, h4]

/-- C10: the streak of habit H is a function of the set of days on which H has
a completion; collections carrying the same day set for H, regardless of
completions of other habits, duplicate entries or ordering, give the same
streak. -/
theorem streak_date_set_extensional (H : String) (C₁ C₂ : List Completion) (today : Int)
    (h : ∀ d : Int, (∃ c ∈ C₁, c.habitId = H ∧ c.date = d)
      ↔ (∃ c ∈ C₂, c.habitId = H ∧ c.date = d)) :
    getStreak H C₁ today = getStreak H C₂ today := by
  apply getStreak_congr
  intro d
  rw [Bool.eq_iff_iff]
  unfold doneB
  rw [List.any_eq_true, List.any_eq_true]
  constructor
  · rintro ⟨c, hc, hm⟩
    rw [Bool.and_eq_true, beq_iff_eq, beq_iff_eq] at hm
    rcases (h d).mp ⟨c, hc, hm.1, hm.2⟩ with ⟨c2, hc2, hH, hd⟩
    refine ⟨c2, hc2, ?_⟩
    rw [Bool.and_eq_true, beq_iff_eq, beq_iff_eq]
    exact ⟨hH, hd⟩
  · rintro ⟨c, hc, hm⟩
    rw [Bool.and_eq_true, beq_iff_eq, beq_iff_eq] at hm
    rcases (h d).mpr ⟨c, hc, hm.1, hm.2⟩ with ⟨c2, hc2, hH, hd⟩
    refine ⟨c2, hc2, ?_⟩
    rw [Bool.and_eq_true, beq_iff_eq, beq_iff_eq]
    exact ⟨hH, hd⟩

/-- Witness for C10 at concrete collections: duplicates and entries of a
different habit do not change the streak. -/
theorem streak_date_set_extensional_witness :
    getStreak "a" [⟨"a", 5⟩, ⟨"a", 5⟩, ⟨"b", 9⟩] 5 = getStreak "a" [⟨"a", 5⟩] 5 :=
  streak_date_set_extensional "a" _ _ 5 (by
    intro d
    constructor
    · rintro ⟨c, hc, hH, hd⟩
      simp only [List.mem_cons, List.not_mem_nil, or_false] at hc
      rcases hc with rfl | rfl | rfl
      · exact ⟨⟨"a", 5⟩, by simp, rfl, hd⟩
      · exact ⟨⟨"a", 5⟩, by simp, rfl, hd⟩
      · exact absurd hH (by decide)
    · rintro ⟨c, hc, hH, hd⟩
      simp only [List.mem_cons, List.not_mem_nil, or_false] at hc
      rcases hc with rfl
      exact ⟨⟨"a", 5⟩, by simp, rfl, hd⟩)

-- ─── Lemmas: invariant, deletion, creation ───────────────────────────────────

/-- C3: the at-most-one-completion-per-habit-and-day invariant is preserved by
toggling, by the completion filtering of habit deletion, and by habit
creation, which does not touch the completion collection at all. -/
theorem completion_invariant_preserved (H : String) (C : List Completion) (t : Int)
    (id input newId createdAt : String) (habits : List Habit)
    (h : AtMostOnePerDay C) :
    AtMostOnePerDay (toggleComplete H C t) ∧
    AtMostOnePerDay ((deleteHabit id (habits, C)).2) ∧
    (addHabitState input newId createdAt (habits, C)).2 = C ∧
    AtMostOnePerDay ((addHabitState input newId createdAt (habits, C)).2) := by
  refine ⟨?_, h.sublist (List.filter_sublist C), rfl, h⟩
  by_cases hd : doneB H C t = true
  · rw [toggleComplete_done H C t hd]
    exact h.sublist (List.filter_sublist C)
  · have hd0 : doneB H C t = false := by simpa using hd
    rw [toggleComplete_not_done H C t hd0]
    unfold AtMostOnePerDay
    rw [List.pairwise_append]
    refine ⟨h, by simp, ?_⟩
    intro a ha b hb
    simp only [List.mem_singleton] at hb
    subst hb
    unfold doneB at hd0
    rw [List.any_eq_false] at hd0
    have hna := hd0 a ha
    intro hcon
    apply hna
    rw [Bool.and_eq_true, beq_iff_eq, beq_iff_eq]
    exact ⟨hcon.1, hcon.2⟩

/-- Witness for C3 at a concrete collection. -/
theorem completion_invariant_preserved_witness :
    AtMostOnePerDay (toggleComplete "a" [] 0) ∧
    AtMostOnePerDay ((deleteHabit "b" (([] : List Habit), ([] : List Completion))).2) ∧
    (addHabitState "x" "i" "c" (([] : List Habit), ([] : List Completion))).2 = [] ∧
    AtMostOnePerDay ((addHabitState "x" "i" "c" (([] : List Habit), ([] : List Completion))).2) :=
  completion_invariant_preserved "a" [] 0 "b" "x" "i" "c" [] List.Pairwise.nil

/-- C5: deleting a habit removes exactly the habits carrying its id from the
habit collection and exactly the completions referencing its id from the
completion collection; everything else is kept, in order. -/
theorem deleteHabit_frame (habits : List Habit) (C : List Completion) (H : Habit)
    (_hmem : H ∈ habits) (h2 : Habit) (c : Completion) :
    (h2 ∈ (deleteHabit H.id (habits, C)).1 ↔ (h2 ∈ habits ∧ h2.id ≠ H.id)) ∧
    (c ∈ (deleteHabit H.id (habits, C)).2 ↔ (c ∈ C ∧ c.habitId ≠ H.id)) ∧
    (deleteHabit H.id (habits, C)).1.Sublist habits ∧
    (deleteHabit H.id (habits, C)).2.Sublist C := by
  refine ⟨?_, ?_, List.filter_sublist _, List.filter_sublist _⟩
  · simp [deleteHabit, List.mem_filter, bne_iff_ne]
  · simp [deleteHabit, List.mem_filter, bne_iff_ne]

/-- Witness for C5 at a concrete state: the habit and its completion are
removed. -/
theorem deleteHabit_frame_witness :
    (sampleHabit ∈ (deleteHabit sampleHabit.id ([sampleHabit], [(⟨"a", 0⟩ : Completion)])).1
        ↔ (sampleHabit ∈ [sampleHabit] ∧ sampleHabit.id ≠ sampleHabit.id)) ∧
    ((⟨"a", 0⟩ : Completion) ∈ (deleteHabit sampleHabit.id ([sampleHabit], [(⟨"a", 0⟩ : Completion)])).2
        ↔ ((⟨"a", 0⟩ : Completion) ∈ [(⟨"a", 0⟩ : Completion)]
            ∧ (⟨"a", 0⟩ : Completion).habitId ≠ sampleHabit.id)) ∧
    (deleteHabit sampleHabit.id ([sampleHabit], [(⟨"a", 0⟩ : Completion)])).1.Sublist [sampleHabit] ∧
    (deleteHabit sampleHabit.id ([sampleHabit], [(⟨"a", 0⟩ : Completion)])).2.Sublist
      [(⟨"a", 0⟩ : Completion)] :=
  deleteHabit_frame [sampleHabit] [(⟨"a", 0⟩ : Completion)] sampleHabit
    (List.mem_singleton.mpr rfl) sampleHabit ⟨"a", 0⟩

/-- C6: an input that trims to the empty string makes addHabit a silent no-op
returning the habit collection unchanged, and an input with a nonempty
trimmed name appends exactly one habit carrying the trimmed name. -/
theorem addHabit_validation (input newId createdAt : String) (habits : List Habit) :
    (jsTrim input = "" → addHabit input newId createdAt habits = habits) ∧
    (jsTrim input ≠ "" →
      addHabit input newId createdAt habits
        = habits ++ [Habit.mk newId (jsTrim input) createdAt
            (suggestVideo (jsTrim input)).videoId (suggestVideo (jsTrim input)).title
            (suggestPlaylist (jsTrim input)).playlistId (suggestPlaylist (jsTrim input)).title
            (suggestPlaylist (jsTrim input)).category (suggestPlaylist (jsTrim input)).emoji
            (suggestPlaylist (jsTrim input)).color]) := by
  constructor
  · intro he
    have hb : (jsTrim input).isEmpty = true := (String.isEmpty_iff _).mpr he
    simp only [addHabit, hb, if_true]
  · intro hne
    have hb : (jsTrim input).isEmpty = false :=
      Bool.eq_false_iff.mpr (fun hemp => hne ((String.isEmpty_iff _).mp hemp))
    simp only [addHabit, hb, Bool.false_eq_true, if_false]

/-- Witness for C6: whitespace-only input leaves the collection unchanged, a
real name is appended in trimmed form. -/
theorem addHabit_validation_witness :
    addHabit "  " "i" "c" [] = [] ∧
    addHabit " Run " "i" "c" []
      = [] ++ [Habit.mk "i" (jsTrim " Run ") "c"
          (suggestVideo (jsTrim " Run ")).videoId (suggestVideo (jsTrim " Run ")).title
          (suggestPlaylist (jsTrim " Run ")).playlistId (suggestPlaylist (jsTrim " Run ")).title
          (suggestPlaylist (jsTrim " Run ")).category (suggestPlaylist (jsTrim " Run ")).emoji
          (suggestPlaylist (jsTrim " Run ")).color] :=
  ⟨(addHabit_validation "  " "i" "c" []).1 (by decide),
   (addHabit_validation " Run " "i" "c" []).2 (by decide)⟩

-- ─── Lemmas: suggestion lookup ───────────────────────────────────────────────

/-- findVideo is first-match-wins over its table, with the fixed fallback. -/
theorem findVideo_eq_find (l : List VideoEntry) (lower : String) :
    findVideo l lower
      = ((l.find? (fun e => e.keywords.any (fun kw => strIncludes lower kw))).map
          (fun e => VideoSuggestion.mk e.videoId e.title)).getD videoFallback := by
  induction l with
  | nil => rfl
  | cons e rest ih =>
    by_cases h : (e.keywords.any (fun kw => strIncludes lower kw)) = true
    · have hfind : List.find? (fun e2 => e2.keywords.any (fun kw => strIncludes lower kw)) (e :: rest)
          = some e := by
        simp [List.find?_cons, h]
      rw [hfind]
      simp only [findVideo, h, if_true]
      rfl
    · have hf : (e.keywords.any (fun kw => strIncludes lower kw)) = false := by simpa using h
      have hfind : List.find? (fun e2 => e2.keywords.any (fun kw => strIncludes lower kw)) (e :: rest)
          = List.find? (fun e2 => e2.keywords.any (fun kw => strIncludes lower kw)) rest := by
        simp [List.find?_cons, hf]
      rw [hfind]
      simp only [findVideo, hf, Bool.false_eq_true, if_false]
      exact ih

/-- findPlaylist is first-match-wins over its table, with the fixed
fallback. -/
theorem findPlaylist_eq_find (l : List PlaylistEntry) (lower : String) :
    findPlaylist l lower
      = (l.find? (fun e => e.keywords.any (fun kw => strIncludes lower kw))).getD
          playlistFallback := by
  induction l with
  | nil => rfl
  | cons e rest ih =>
    by_cases h : (e.keywords.any (fun kw => strIncludes lower kw)) = true
    · have hfind : List.find? (fun e2 => e2.keywords.any (fun kw => strIncludes lower kw)) (e :: rest)
          = some e := by
        simp [List.find?_cons, h]
      rw [hfind]
      simp only [findPlaylist, h, if_true]
      rfl
    · have hf : (e.keywords.any (fun kw => strIncludes lower kw)) = false := by simpa using h
      have hfind : List.find? (fun e2 => e2.keywords.any (fun kw => strIncludes lower kw)) (e :: rest)
          = List.find? (fun e2 => e2.keywords.any (fun kw => strIncludes lower kw)) rest := by
        simp [List.find?_cons, hf]
      rw [hfind]
      simp only [findPlaylist, hf, Bool.false_eq_true, if_false]
      exact ih

/-- C7: both suggestion lookups lower-case the habit name, scan their ordered
keyword table and return the first entry one of whose keywords occurs in the
lowered name, falling back to a fixed suggestion when no keyword matches, so
they never fail; the name Morning Run is assigned the run entry, which
precedes the morning entry, in both tables. -/
theorem suggestion_first_match :
    (∀ name : String, suggestVideo name
      = ((VIDEO_MAP.find?
            (fun e => e.keywords.any (fun kw => strIncludes (jsToLower name) kw))).map
          (fun e => VideoSuggestion.mk e.videoId e.title)).getD videoFallback) ∧
    (∀ name : String, suggestPlaylist name
      = (PLAYLIST_MAP.find?
          (fun e => e.keywords.any (fun kw => strIncludes (jsToLower name) kw))).getD
          playlistFallback) ∧
    suggestVideo "Morning Run"
      = ⟨"iSFpgQUGCVo", "How to Start Running (and Actually Enjoy It)"⟩ ∧
    suggestPlaylist "Morning Run"
      = ⟨["run", "jog", "cardio", "marathon", "sprint"],
          "PLgzTt0k8mXzEk586ze4BjKDn2KKOIUmMX", "Running Motivation Mix",
          "Upbeat beats to keep your pace up", "Running", "🏃", "#FFF7ED"⟩ := by
  refine ⟨fun name => findVideo_eq_find VIDEO_MAP (jsToLower name),
    fun name => findPlaylist_eq_find PLAYLIST_MAP (jsToLower name), by decide, by decide⟩

-- ─── Lemmas: day representation ──────────────────────────────────────────────

/-- C8: the day strings the program produces come from toISOString, which
always renders the UTC calendar day, while the claim, the spec and the source
doc comment of todayStr ask for the local calendar day with boundaries at
local midnight; at the instant 60 minutes after midnight UTC in a local
timezone 300 minutes behind UTC the two days differ, so the code contradicts
the claim. -/
theorem todayStr_utc_day_bug :
    todayStrDay 60 = 0 ∧ localCalendarDay 60 (-300) = -1 ∧
      todayStrDay 60 ≠ localCalendarDay 60 (-300) := by
  refine ⟨by decide, by decide, by decide⟩

-- ─── Lemmas: persistence round trip ──────────────────────────────────────────

/-- Parsing an expected literal prefix succeeds and returns the remainder. -/
theorem parseExact_append (pre : List Char) : ∀ s, parseExact pre (pre ++ s) = some s := by
  induction pre with
  | nil => intro s; rfl
  | cons c cs ih =>
    intro s
    show parseExact (c :: cs) (c :: (cs ++ s)) = some s
    simp [parseExact, ih s]

/-- The string-body parser undoes the string-body encoder. -/
theorem parseStringChars_encode (v : List Char) :
    ∀ rest, parseStringChars (encodeStringChars v ++ ('\"' :: rest)) = some (v, rest) := by
  induction v with
  | nil =>
    intro rest
    show parseStringChars ('\"' :: rest) = some ([], rest)
    rw [parseStringChars.eq_def]
    simp
  | cons c cs ih =>
    intro rest
    show parseStringChars ((escapeChar c ++ encodeStringChars cs) ++ ('\"' :: rest)) = _
    by_cases hc : c = '\"' ∨ c = '\\'
    · have he : escapeChar c = ['\\', c] := by simp [escapeChar, hc]
      rw [he]
      show parseStringChars ('\\' :: c :: (encodeStringChars cs ++ ('\"' :: rest))) = _
      simp [parseStringChars, ih rest]
    · push_neg at hc
      have he : escapeChar c = [c] := by simp [escapeChar, hc.1, hc.2]
      rw [he]
      show parseStringChars (c :: (encodeStringChars cs ++ ('\"' :: rest))) = _
      rw [parseStringChars.eq_def]
      simp [hc.1, hc.2, ih rest]

/-- The JSON string parser undoes the JSON string encoder. -/
theorem parseJsonString_encode (v : String) (rest : List Char) :
    parseJsonString (encodeJsonString v ++ rest) = some (v, rest) := by
  show parseJsonString ('\"' :: ((encodeStringChars v.data ++ ['\"']) ++ rest)) = _
  rw [List.append_assoc]
  show parseJsonString ('\"' :: (encodeStringChars v.data ++ ('\"' :: rest))) = _
  simp [parseJsonString, parseStringChars_encode v.data rest]

/-- Reading back an encoded decimal digit. -/
theorem charDigitVal_digitChar (d : Nat) (hd : d < 10) :
    charDigitVal (digitChar d) = some d := by
  interval_cases d <;> decide

/-- The digit-run parser undoes a digit-run encoding when the remainder does
not start with a digit. -/
theorem parseDigits_encode (ds : List Nat) (hds : ∀ d ∈ ds, d < 10) :
    ∀ rest, headNotDigit rest → parseDigits (ds.map digitChar ++ rest) = (ds, rest) := by
  induction ds with
  | nil =>
    intro rest hrest
    cases rest with
    | nil => rfl
    | cons c t =>
      have hnone : charDigitVal c = none := hrest
      simp [parseDigits, hnone]
  | cons d ds ih =>
    intro rest hrest
    have hd : d < 10 := hds d (by simp)
    have hds2 : ∀ x ∈ ds, x < 10 := fun x hx => hds x (by simp [hx])
    show parseDigits (digitChar d :: (ds.map digitChar ++ rest)) = _
    simp [parseDigits, charDigitVal_digitChar d hd, ih hds2 rest hrest]

/-- The natural-number parser undoes the decimal encoder. -/
theorem parseNatChars_encode (n : Nat) (rest : List Char) (hrest : headNotDigit rest) :
    parseNatChars (encodeNatChars n ++ rest) = some (n, rest) := by
  by_cases h0 : n = 0
  · subst h0
    have h1 : parseDigits (([0] : List Nat).map digitChar ++ rest) = ([0], rest) :=
      parseDigits_encode [0] (by simp) rest hrest
    show parseNatChars ('0' :: rest) = some (0, rest)
    have h2 : parseDigits ('0' :: rest) = ([0], rest) := by
      have he : ([0] : List Nat).map digitChar = ['0'] := by decide
      rw [he] at h1
      exact h1
    unfold parseNatChars
    rw [h2]
    simp [Nat.ofDigits]
  · have hne : Nat.digits 10 n ≠ [] := Nat.digits_ne_nil_iff_ne_zero.mpr h0
    have hlt : ∀ d ∈ (Nat.digits 10 n).reverse, d < 10 := by
      intro d hd
      rw [List.mem_reverse] at hd
      exact Nat.digits_lt_base (by norm_num) hd
    have henc : encodeNatChars n = (Nat.digits 10 n).reverse.map digitChar := by
      simp [encodeNatChars, h0]
    obtain ⟨d, ds, hrev⟩ : ∃ d ds, (Nat.digits 10 n).reverse = d :: ds := by
      rcases hl : (Nat.digits 10 n).reverse with _ | ⟨d, ds⟩
      · exact absurd (List.reverse_eq_nil_iff.mp hl) hne
      · exact ⟨d, ds, rfl⟩
    have hp := parseDigits_encode (Nat.digits 10 n).reverse hlt rest hrest
    rw [hrev] at hp
    rw [henc, hrev]
    unfold parseNatChars
    rw [hp]
    have hofd : Nat.ofDigits 10 (d :: ds).reverse = n := by
      rw [← hrev, List.reverse_reverse]
      exact Nat.ofDigits_digits 10 n
    show some (Nat.ofDigits 10 (d :: ds).reverse, rest) = some (n, rest)
    rw [hofd]

/-- The head of an encoded natural number is a digit character. -/
theorem encodeNatChars_head (m : Nat) :
    ∃ d t, encodeNatChars m = digitChar d :: t ∧ d < 10 := by
  by_cases h0 : m = 0
  · subst h0
    exact ⟨0, [], by decide, by norm_num⟩
  · have hne : Nat.digits 10 m ≠ [] := Nat.digits_ne_nil_iff_ne_zero.mpr h0
    obtain ⟨d, ds, hrev⟩ : ∃ d ds, (Nat.digits 10 m).reverse = d :: ds := by
      rcases hl : (Nat.digits 10 m).reverse with _ | ⟨d, ds⟩
      · exact absurd (List.reverse_eq_nil_iff.mp hl) hne
      · exact ⟨d, ds, rfl⟩
    have hd : d < 10 := by
      have : d ∈ (Nat.digits 10 m).reverse := by rw [hrev]; simp
      rw [List.mem_reverse] at this
      exact Nat.digits_lt_base (by norm_num) this
    refine ⟨d, ds.map digitChar, ?_, hd⟩
    simp [encodeNatChars, h0, hrev]

/-- The integer parser undoes the integer encoder when the remainder does not
start with a digit. -/
theorem parseIntChars_encode (n : Int) (rest : List Char) (hrest : headNotDigit rest) :
    parseIntChars (encodeIntChars n ++ rest) = some (n, rest) := by
  by_cases hneg : n < 0
  · have henc : encodeIntChars n = '-' :: encodeNatChars n.natAbs := by
      simp [encodeIntChars, hneg]
    rw [henc]
    show parseIntChars ('-' :: (encodeNatChars n.natAbs ++ rest)) = _
    have hstep : parseIntChars ('-' :: (encodeNatChars n.natAbs ++ rest))
        = (parseNatChars (encodeNatChars n.natAbs ++ rest)).map (fun p => (-(p.1 : Int), p.2)) := by
      rw [parseIntChars.eq_def]
      simp
    rw [hstep, parseNatChars_encode n.natAbs rest hrest]
    simp only [Option.map_some']
    have habs : -(n.natAbs : Int) = n := by omega
    rw [habs]
  · have henc : encodeIntChars n = encodeNatChars n.natAbs := by
      simp [encodeIntChars, hneg]
    rw [henc]
    obtain ⟨d, t, het, hd⟩ := encodeNatChars_head n.natAbs
    rw [het]
    show parseIntChars (digitChar d :: (t ++ rest)) = _
    have hnm : ¬(digitChar d = '-') := by
      intro hcon
      have hv := charDigitVal_digitChar d hd
      rw [hcon, show charDigitVal '-' = none from by decide] at hv
      exact Option.noConfusion hv
    have hstep : parseIntChars (digitChar d :: (t ++ rest))
        = (parseNatChars (digitChar d :: (t ++ rest))).map (fun p => ((p.1 : Int), p.2)) := by
      rw [parseIntChars.eq_def]
      simp [hnm]
    rw [hstep, show digitChar d :: (t ++ rest) = (digitChar d :: t) ++ rest from rfl, ← het,
      parseNatChars_encode n.natAbs rest hrest]
    simp only [Option.map_some']
    have habs : (n.natAbs : Int) = n := by omega
    rw [habs]

/-- The field-list parser undoes the field-list encoder. -/
theorem parseFields_encode (kvs : List (String × String)) :
    ∀ (first : Bool) (rest : List Char),
      parseFields (kvs.map Prod.fst) first (encodeFields kvs first ++ rest)
        = some (kvs.map Prod.snd, rest) := by
  induction kvs with
  | nil => intro first rest; rfl
  | cons kv kvs ih =>
    intro first rest
    show parseFields (kv.1 :: kvs.map Prod.fst) first
        (((if first then firstFieldKey kv.1 else nextFieldKey kv.1) ++
          (encodeJsonString kv.2 ++ encodeFields kvs false)) ++ rest) = _
    simp only [List.append_assoc]
    simp only [parseFields, parseExact_append, Option.some_bind, parseJsonString_encode,
      ih, Option.map_some']
    rfl

/-- The habit parser undoes the habit encoder. -/
theorem parseHabit_encode (h : Habit) (rest : List Char) :
    parseHabit (encodeHabit h ++ rest) = some (h, rest) := by
  show parseHabit (encodeFields (habitKeys.zip (habitFieldValues h)) true ++ ['\x7d'] ++ rest) = _
  rw [List.append_assoc]
  unfold parseHabit
  have hpf : parseFields habitKeys true
      (encodeFields (habitKeys.zip (habitFieldValues h)) true ++ (['\x7d'] ++ rest))
      = some ((habitKeys.zip (habitFieldValues h)).map Prod.snd, ['\x7d'] ++ rest) :=
    parseFields_encode (habitKeys.zip (habitFieldValues h)) true (['\x7d'] ++ rest)
  rw [hpf]
  rfl

/-- The completion parser undoes the completion encoder. -/
theorem parseCompletion_encode (c : Completion) (rest : List Char) :
    parseCompletion (encodeCompletion c ++ rest) = some (c, rest) := by
  unfold parseCompletion encodeCompletion
  simp only [List.append_assoc]
  rw [parseExact_append]
  simp only [Option.some_bind]
  rw [parseJsonString_encode]
  simp only [Option.some_bind]
  rw [parseExact_append]
  simp only [Option.some_bind]
  rw [parseIntChars_encode c.date (['\x7d'] ++ rest)
    (show charDigitVal '\x7d' = none from by decide)]
  simp only [Option.some_bind]
  rw [parseExact_append]
  simp only [Option.map_some']

/-- The array-continuation parser undoes the comma-separated encoding. -/
theorem parseItemsRest_encode {α : Type} (p : List Char → Option (α × List Char))
    (enc : α → List Char)
    (hp : ∀ (x : α) (rest : List Char), p (enc x ++ rest) = some (x, rest)) :
    ∀ (xs : List α) (fuel : Nat), xs.length ≤ fuel →
      ∀ rest, parseItemsRest p fuel (xs.flatMap (fun y => ',' :: enc y) ++ (']' :: rest))
        = some (xs, rest) := by
  intro xs
  induction xs with
  | nil =>
    intro fuel _ rest
    show parseItemsRest p fuel (']' :: rest) = _
    cases fuel with
    | zero =>
      rw [parseItemsRest.eq_def]
      simp
    | succ f =>
      rw [parseItemsRest.eq_def]
      simp
  | cons y ys ih =>
    intro fuel hlen rest
    cases fuel with
    | zero => simp at hlen
    | succ f =>
      simp only [List.flatMap_cons, List.cons_append, List.append_assoc]
      rw [parseItemsRest.eq_def]
      simp only [show ¬((',' : Char) = ']') from by decide, if_false,
        show ((',' : Char) = ',') from rfl, if_true, reduceIte]
      rw [hp]
      simp only [Option.some_bind]
      rw [ih f (by simp at hlen; omega) rest]
      rfl

/-- The array parser undoes the array encoder, given enough fuel and an item
encoding that starts with an opening brace. -/
theorem parseArray_encode {α : Type} (p : List Char → Option (α × List Char))
    (enc : α → List Char)
    (hp : ∀ (x : α) (rest : List Char), p (enc x ++ rest) = some (x, rest))
    (hhead : ∀ x : α, ∃ t, enc x = '\x7b' :: t) :
    ∀ (xs : List α) (fuel : Nat), xs.length ≤ fuel →
      ∀ rest, parseArray p fuel (encodeArray enc xs ++ rest) = some (xs, rest) := by
  intro xs fuel hlen rest
  cases xs with
  | nil =>
    show parseArray p fuel ('[' :: ']' :: rest) = _
    rw [parseArray.eq_def]
    simp
  | cons y ys =>
    have hshape : encodeArray enc (y :: ys) ++ rest
        = '[' :: (enc y ++ (ys.flatMap (fun z => ',' :: enc z) ++ (']' :: rest))) := by
      simp [encodeArray, List.append_assoc]
    rw [hshape]
    obtain ⟨t, het⟩ := hhead y
    rw [parseArray.eq_def]
    simp only []
    rw [show enc y ++ (ys.flatMap (fun z => ',' :: enc z) ++ (']' :: rest))
        = '\x7b' :: (t ++ (ys.flatMap (fun z => ',' :: enc z) ++ (']' :: rest))) from by
      rw [het, List.cons_append]]
    simp only [show ¬(('[' : Char) = ']') from by decide, if_false,
      show (('[' : Char) = '[') from rfl, if_true, reduceIte,
      show ¬(('\x7b' : Char) = ']') from by decide]
    rw [show ('\x7b' : Char) :: (t ++ (ys.flatMap (fun z => ',' :: enc z) ++ (']' :: rest)))
        = enc y ++ (ys.flatMap (fun z => ',' :: enc z) ++ (']' :: rest)) from by
      rw [het, List.cons_append]]
    rw [hp]
    simp only [Option.some_bind]
    rw [parseItemsRest_encode p enc hp ys fuel (by simp at hlen; omega) rest]
    rfl

/-- Each encoded item contributes at least one character, so the stored string
is at least as long as the collection. -/
theorem length_le_encodeArray {α : Type} (enc : α → List Char) (xs : List α) :
    xs.length ≤ (encodeArray enc xs).length := by
  cases xs with
  | nil => simp [encodeArray]
  | cons y ys =>
    have hflat : ∀ zs : List α, zs.length ≤ (zs.flatMap (fun z => ',' :: enc z)).length := by
      intro zs
      induction zs with
      | nil => simp
      | cons z zs ih =>
        rw [List.flatMap_cons, List.length_append, List.length_cons]
        simp only [List.length_cons]
        omega
    have hy := hflat ys
    simp only [encodeArray, List.length_cons, List.length_append]
    omega

/-- The stored habit record parses back to the habit collection. -/
theorem parseHabits_stringify (hs : List Habit) :
    parseHabits (stringifyHabits hs) = some hs := by
  unfold parseHabits stringifyHabits
  have harr := parseArray_encode parseHabit encodeHabit parseHabit_encode
    (fun h => ⟨_, rfl⟩) hs (encodeArray encodeHabit hs).length
    (length_le_encodeArray encodeHabit hs) []
  rw [List.append_nil] at harr
  show (match parseArray parseHabit (encodeArray encodeHabit hs).length
      (encodeArray encodeHabit hs) with
    | some (hs, []) => some hs
    | _ => none) = some hs
  rw [harr]

/-- The stored completion record parses back to the completion collection. -/
theorem parseCompletions_stringify (cs : List Completion) :
    parseCompletions (stringifyCompletions cs) = some cs := by
  unfold parseCompletions stringifyCompletions
  have harr := parseArray_encode parseCompletion encodeCompletion parseCompletion_encode
    (fun c => ⟨_, rfl⟩) cs (encodeArray encodeCompletion cs).length
    (length_le_encodeArray encodeCompletion cs) []
  rw [List.append_nil] at harr
  show (match parseArray parseCompletion (encodeArray encodeCompletion cs).length
      (encodeArray encodeCompletion cs) with
    | some (cs, []) => some cs
    | _ => none) = some cs
  rw [harr]

/-- C9: saving the habit collection and the completion collection and loading
them back returns exactly the original collections. -/
theorem persistence_round_trip (hs : List Habit) (cs : List Completion) (st : Store) :
    loadState (saveCompletionsStore cs (saveHabitsStore hs st)) = some (hs, cs) := by
  show (parseHabits (stringifyHabits hs)).bind (fun a =>
    (parseCompletions (stringifyCompletions cs)).map (fun b => (a, b))) = some (hs, cs)
  rw [parseHabits_stringify, parseCompletions_stringify]
  rfl
